import Mathlib

/-!
Verification of the checkpointed two-phase coverage/energy pipeline of the
vf_ec repository.  The Python scripts are shallowly embedded:

* `TC` models `vuln_fix_testCompile.py` (the per-project two-phase script),
* `VI` models `src/docker/vfec_init.py` (the generic pipeline driver),
* `VO` models `src/docker/vfec_output.py` (the common engine),
* `PR` models `src/profiler.py` (the energy profiler).

Shell effects (git, make, running a test, writing a checkpoint) are
represented by explicit action traces; the outcomes of external commands
(checkout/build success, the coverage produced by a test, the stderr lines
of `perf stat`, the parse outcome of `json.load`) are inputs of the model.
Strings are handled at the character-list level so that every definition
evaluates by kernel reduction.
-/

/-- Boolean infix test on lists (contiguous sublist). -/
def listIsInfix (pat : List Char) : List Char → Bool
  | [] => pat.isEmpty
  | c :: rest => pat.isPrefixOf (c :: rest) || listIsInfix pat rest

/-- Model of the Python substring test `pat in s`. -/
def containsStr (s pat : String) : Bool :=
  listIsInfix pat.data s.data

/-- Model of Python `s.endswith(suffix)`. -/
def strEndsWith (s suffix : String) : Bool :=
  suffix.data.isSuffixOf s.data

/-- Model of `os.path.join(a, b)` for the relative paths produced by
`os.walk` (`a` has no trailing separator, `b` is relative). -/
def joinPath (a b : String) : String :=
  if a = "" then b else a ++ "/" ++ b

/-- Model of `os.path.dirname(p)`: the text before the last `/`,
or the empty string when there is no separator. -/
def dirname (p : String) : String :=
  match p.data.reverse.dropWhile (fun c => c ≠ '/') with
  | [] => ""
  | _ :: rest => ⟨rest.reverse⟩

/-- Left-to-right non-overlapping replacement on character lists, with fuel
so that it is structurally recursive (the fuel is the length of the list,
which always suffices). -/
def replaceAux (pat rep : List Char) : Nat → List Char → List Char
  | _, [] => []
  | 0, s => s
  | fuel+1, c :: rest =>
    if pat.isPrefixOf (c :: rest) then
      rep ++ replaceAux pat rep fuel (rest.drop (pat.length - 1))
    else
      c :: replaceAux pat rep fuel rest

/-- Model of Python `s.replace(pat, rep)` (all occurrences, left to right). -/
def strReplace (s pat rep : String) : String :=
  ⟨replaceAux pat.data rep.data s.data.length s.data⟩

/-- Suffix of `s` strictly after the last occurrence of `pat`; meaningful
when `pat` occurs in `s` (this is the only way the sources use it, guarded
by a containment test).  Models `s.split(pat)[-1]`. -/
def afterLast (pat : List Char) : Nat → List Char → List Char
  | 0, s => s
  | _+1, [] => []
  | fuel+1, c :: rest =>
    if pat.isPrefixOf (c :: rest) then
      let t := (c :: rest).drop pat.length
      if listIsInfix pat t then afterLast pat fuel t else t
    else afterLast pat fuel rest

namespace TC

/-- From `vuln_fix_testCompile.get_covered_files`, the per-file part:
strip the `.gcda` extension (`file[:-5]`), take the text after the last
`_la-` when present, append `.c`. -/
def normalize_gcda_name (file : String) : String :=
  let name_without_ext : String := ⟨file.data.take (file.data.length - 5)⟩
  let real_name : String :=
    if containsStr name_without_ext "_la-" then
      ⟨afterLast "_la-".data name_without_ext.data.length name_without_ext.data⟩
    else name_without_ext
  real_name ++ ".c"

/-- From `vuln_fix_testCompile.get_covered_files`, the directory part: a
`.gcda` found under a directory ending in `.libs` is attributed to the
parent directory; a root artifact keeps the bare name; finally backslashes
are normalized to slashes. -/
def artifact_source_path (rel_dir file : String) : String :=
  let source_name := normalize_gcda_name file
  let rel_dir2 := if strEndsWith rel_dir ".libs" then dirname rel_dir else rel_dir
  let full_path := if rel_dir2 = "." then source_name else joinPath rel_dir2 source_name
  strReplace full_path "\\" "/"

/-- Model of `vuln_fix_testCompile.get_covered_files`: the walked tree is
given as a list of `(relative directory, file name)` pairs; every `.gcda`
artifact is mapped to its probable source path.  (The Python function
collects them into a set; the model keeps the list, and all properties
proved about it are membership properties, for which this is equivalent.) -/
def get_covered_files (artifacts : List (String × String)) : List String :=
  (artifacts.filter fun a => strEndsWith a.2 ".gcda").map fun a =>
    artifact_source_path a.1 a.2

end TC

namespace VO

/-- Model of `vfec_output.get_covered_files`: this variant performs NO
libtool `_la-` stripping and NO `.libs` parent attribution; it only
replaces `.gcda` with `.c` in the file name (all occurrences, as Python
`str.replace` does). -/
def get_covered_files (artifacts : List (String × String)) : List String :=
  (artifacts.filter fun a => strEndsWith a.2 ".gcda").map fun a =>
    let source_name := strReplace a.2 ".gcda" ".c"
    if a.1 = "." then source_name else joinPath a.1 source_name

/-- Phase-1 CSV header of `vfec_output.CSVManager`. -/
def header_p1 : List String :=
  ["project", "vuln_commit", "v_testname", "fix_commit", "f_testname", "sourcefile"]

/-- Phase-2 CSV header of `vfec_output.CSVManager`: eight columns only. -/
def header_p2 : List String :=
  ["project", "vuln_commit", "v_testname", "v_energy_pkg",
   "fix_commit", "f_testname", "sourcefile", "f_energy_pkg"]

end VO

namespace PR

/-- Field names of the CSV written by `profiler.write_csv_from_cache`. -/
def fieldnames : List String :=
  ["project", "vuln_commit", "v_testname",
   "v_energy_pkg", "v_energy_core", "v_cycles", "v_ipc",
   "fix_commit", "f_testname", "sourcefile",
   "f_energy_pkg", "f_energy_core", "f_cycles", "f_ipc"]

end PR

/-- Claim C4 (amended): the normalization in
`vuln_fix_testCompile.get_covered_files` strips the `.gcda` extension,
takes the text after the last `_la-` occurrence, appends `.c`, and
attributes artifacts found in a `.libs` directory to the parent directory;
in particular `MagickCore_la-pcl.gcda` resolves to `pcl.c`.  The
`vfec_output.get_covered_files` variant performs none of the libtool or
`.libs` handling (see the counterexample). -/
theorem claim_C4 :
    TC.normalize_gcda_name "MagickCore_la-pcl.gcda" = "pcl.c"
    ∧ TC.get_covered_files [("coders/.libs", "MagickCore_la-pcl.gcda")] = ["coders/pcl.c"]
    ∧ TC.normalize_gcda_name "libfoo_la-bar_la-baz.gcda" = "baz.c"
    ∧ TC.normalize_gcda_name "main.gcda" = "main.c"
    ∧ TC.get_covered_files [(".", "main.gcda"), ("sub", "util.gcda"), ("sub", "notes.txt")]
        = ["main.c", "sub/util.c"] := by
  refine ⟨by decide, by decide, by decide, by decide, by decide⟩

/-- Claim C4 counterexample: the `vfec_output.get_covered_files` variant,
cited by the claim, resolves the basename `MagickCore_la-pcl.gcda` to
`MagickCore_la-pcl.c`, not to `pcl.c`. -/
theorem claim_C4_counterexample :
    VO.get_covered_files [(".", "MagickCore_la-pcl.gcda")] = ["MagickCore_la-pcl.c"]
    ∧ "pcl.c" ∉ VO.get_covered_files [(".", "MagickCore_la-pcl.gcda")] := by
  refine ⟨by decide, by decide⟩

/-- Claim C9 (amended): `profiler.write_csv_from_cache` writes the
fourteen-column Phase-2 header in the claimed order, while the
`CSVManager` engine used by the docker pipeline writes an eight-column
Phase-2 header without the core-energy, cycles and IPC columns. -/
theorem claim_C9 :
    PR.fieldnames
      = ["project", "vuln_commit", "v_testname",
         "v_energy_pkg", "v_energy_core", "v_cycles", "v_ipc",
         "fix_commit", "f_testname", "sourcefile",
         "f_energy_pkg", "f_energy_core", "f_cycles", "f_ipc"]
    ∧ VO.header_p2
      = ["project", "vuln_commit", "v_testname", "v_energy_pkg",
         "fix_commit", "f_testname", "sourcefile", "f_energy_pkg"] := by
  exact ⟨rfl, rfl⟩

/-- Claim C9 counterexample: the Phase-2 header written by
`vfec_output.CSVManager` is not the fourteen-column header of the claim. -/
theorem claim_C9_counterexample :
    VO.header_p2
      ≠ ["project", "vuln_commit", "v_testname",
         "v_energy_pkg", "v_energy_core", "v_cycles", "v_ipc",
         "fix_commit", "f_testname", "sourcefile",
         "f_energy_pkg", "f_energy_core", "f_cycles", "f_ipc"] := by
  decide

/-- One output row of the Phase-1 relevance CSV
(`project, vuln_commit, v_testname, fix_commit, f_testname, sourcefile`). -/
structure P1Row where
  project : String
  vuln_commit : String
  v_testname : String
  fix_commit : String
  f_testname : String
  sourcefile : String
deriving DecidableEq, Repr

/-- Python `(t_name in vuln_results) and (target in vuln_results[t_name])`. -/
def v_covered (vuln_results : List (String × List String)) (t target : String) : Bool :=
  match vuln_results.lookup t with
  | some covs => covs.contains target
  | none => false

/-- The cross-reference loop body shared verbatim by
`vuln_fix_testCompile.run_fix_phase` and `vfec_init.run_phase_1`: for one
fix-build test `t_name` with covered set `covered_list`, emit one row per
changed file that is covered by the test in the vuln build or in the fix
build, each column filled exactly when the corresponding build covered it. -/
def cross_reference_rows (project vulnC fixC t_name : String)
    (vuln_results : List (String × List String)) (covered_list : List String)
    (target_files : List String) : List P1Row :=
  target_files.filterMap fun target =>
    let vc := v_covered vuln_results t_name target
    let fc := covered_list.contains target
    if vc || fc then
      some ⟨project, vulnC, if vc then t_name else "", fixC, if fc then t_name else "", target⟩
    else none

/-- Rows produced by the main fix-suite loop (each suite entry is a test
name together with the covered files its run produces). -/
def fix_suite_rows (project vulnC fixC : String) (vuln_results : List (String × List String))
    (suite : List (String × List String)) (target_files : List String) : List P1Row :=
  suite.flatMap fun test =>
    cross_reference_rows project vulnC fixC test.1 vuln_results test.2 target_files

/-- Rows produced by the trailing loop of `run_fix_phase` for tests present
in the vuln results but absent from the fix suite. -/
def leftover_rows (project vulnC fixC : String) (vuln_results : List (String × List String))
    (processed : List String) (target_files : List String) : List P1Row :=
  vuln_results.flatMap fun entry =>
    if processed.contains entry.1 then []
    else
      target_files.filterMap fun target =>
        if entry.2.contains target then
          some ⟨project, vulnC, entry.1, fixC, "", target⟩
        else none

/-- All rows written by `vuln_fix_testCompile.run_fix_phase` (main loop
followed by the leftover loop). -/
def run_fix_phase_rows (project vulnC fixC : String) (vuln_results : List (String × List String))
    (suite : List (String × List String)) (target_files : List String) : List P1Row :=
  fix_suite_rows project vulnC fixC vuln_results suite target_files
    ++ leftover_rows project vulnC fixC vuln_results (suite.map Prod.fst) target_files

/-- A row is evidence about the pair `(t, f)` when it carries `t` in one of
its test-name columns and `f` as its source file. -/
def mentions (t f : String) (r : P1Row) : Bool :=
  (r.v_testname == t || r.f_testname == t) && r.sourcefile == f

theorem mem_cross_reference_rows {p v x t : String} {vr : List (String × List String)}
    {cov targets : List String} {r : P1Row} :
    r ∈ cross_reference_rows p v x t vr cov targets ↔
      ∃ g, g ∈ targets ∧ (v_covered vr t g || cov.contains g) = true ∧
        r = ⟨p, v, if v_covered vr t g then t else "", x,
             if cov.contains g then t else "", g⟩ := by
  unfold cross_reference_rows
  simp only [List.mem_filterMap]
  constructor
  · rintro ⟨g, hg, hf⟩
    split at hf
    · exact ⟨g, hg, by assumption, (Option.some.inj hf).symm⟩
    · exact Option.noConfusion hf
  · rintro ⟨g, hg, hc, rfl⟩
    refine ⟨g, hg, ?_⟩
    dsimp only
    rw [if_pos hc]

theorem cross_rows_countP_self (p v x t f : String)
    (vr : List (String × List String)) (cov : List String) :
    ∀ targets : List String,
      (cross_reference_rows p v x t vr cov targets).countP (mentions t f)
        = if (v_covered vr t f || cov.contains f) = true then targets.count f else 0 := by
  intro targets
  induction targets with
  | nil => simp [cross_reference_rows]
  | cons g gs ih =>
    by_cases hc : (v_covered vr t g || cov.contains g) = true
    · have hcons : cross_reference_rows p v x t vr cov (g :: gs)
          = ⟨p, v, if v_covered vr t g then t else "", x,
             if cov.contains g then t else "", g⟩
            :: cross_reference_rows p v x t vr cov gs := by
        unfold cross_reference_rows
        exact List.filterMap_cons_some (by dsimp only; rw [if_pos hc])
      rw [hcons, List.countP_cons, ih]
      by_cases hgf : g = f
      · subst hgf
        have hm : mentions t g
            ⟨p, v, if v_covered vr t g then t else "", x,
             if cov.contains g then t else "", g⟩ = true := by
          unfold mentions
          cases hvc : v_covered vr t g with
          | true => simp
          | false =>
            have hfc : g ∈ cov := by
              rw [hvc] at hc
              simpa [List.elem_iff] using hc
            simp [hvc, hfc]
        rw [hm, hc, List.count_cons_self]
        simp
      · have hm : mentions t f
            ⟨p, v, if v_covered vr t g then t else "", x,
             if cov.contains g then t else "", g⟩ = false := by
          unfold mentions
          simp [hgf]
        rw [hm]
        have : (g :: gs).count f = gs.count f := by
          rw [List.count_cons]
          simp [hgf]
        rw [this]
        simp
    · have hcons : cross_reference_rows p v x t vr cov (g :: gs)
          = cross_reference_rows p v x t vr cov gs := by
        unfold cross_reference_rows
        exact List.filterMap_cons_none (by dsimp only; rw [if_neg hc])
      rw [hcons, ih]
      by_cases hgf : g = f
      · subst hgf
        rw [if_neg hc, if_neg hc]
      · have : (g :: gs).count f = gs.count f := by
          rw [List.count_cons]
          simp [hgf]
        rw [this]

theorem cross_rows_countP_other (p v x n t f : String) (ht : t ≠ "") (htn : t ≠ n)
    (vr : List (String × List String)) (cov targets : List String) :
    (cross_reference_rows p v x n vr cov targets).countP (mentions t f) = 0 := by
  rw [List.countP_eq_zero]
  intro r hr
  rcases mem_cross_reference_rows.mp hr with ⟨g, _, _, rfl⟩
  unfold mentions
  cases hvc : v_covered vr n g <;> cases hfc : cov.contains g <;>
    simp [hvc, hfc, Ne.symm htn, Ne.symm ht]

theorem fix_suite_rows_countP_not_mem (p v x t f : String) (ht : t ≠ "")
    (vr : List (String × List String)) (targets : List String) :
    ∀ suite : List (String × List String), t ∉ suite.map Prod.fst →
      (fix_suite_rows p v x vr suite targets).countP (mentions t f) = 0 := by
  intro suite
  induction suite with
  | nil => intro _; simp [fix_suite_rows]
  | cons test rest ih =>
    intro hnot
    have hcons : fix_suite_rows p v x vr (test :: rest) targets
        = cross_reference_rows p v x test.1 vr test.2 targets
          ++ fix_suite_rows p v x vr rest targets := rfl
    rw [hcons, List.countP_append]
    rw [List.map_cons] at hnot
    have h1 : t ≠ test.1 := fun h => hnot (h ▸ List.mem_cons_self _ _)
    have h2 : t ∉ rest.map Prod.fst := fun h => hnot (List.mem_cons_of_mem _ h)
    rw [cross_rows_countP_other p v x test.1 t f ht h1 vr test.2 targets, ih h2]

theorem nodup_assoc_value_eq :
    ∀ {suite : List (String × List String)}, (suite.map Prod.fst).Nodup →
      ∀ {t : String} {a b : List String}, (t, a) ∈ suite → (t, b) ∈ suite → a = b := by
  intro suite
  induction suite with
  | nil => intro _ t a b ha; cases ha
  | cons test rest ih =>
    intro hnd t a b ha hb
    rw [List.map_cons, List.nodup_cons] at hnd
    rcases List.mem_cons.mp ha with ha1 | ha2 <;> rcases List.mem_cons.mp hb with hb1 | hb2
    · rw [← hb1] at ha1
      exact congrArg Prod.snd ha1
    · exfalso
      apply hnd.1
      rw [← ha1]
      exact List.mem_map.mpr ⟨(t, b), hb2, rfl⟩
    · exfalso
      apply hnd.1
      rw [← hb1]
      exact List.mem_map.mpr ⟨(t, a), ha2, rfl⟩
    · exact ih hnd.2 ha2 hb2

theorem fix_suite_rows_countP (p v x t f : String) (cov : List String) (ht : t ≠ "")
    (vr : List (String × List String)) (targets : List String) :
    ∀ suite : List (String × List String), (suite.map Prod.fst).Nodup →
      (t, cov) ∈ suite →
      (fix_suite_rows p v x vr suite targets).countP (mentions t f)
        = if (v_covered vr t f || cov.contains f) = true then targets.count f else 0 := by
  intro suite
  induction suite with
  | nil => intro _ hts; cases hts
  | cons test rest ih =>
    intro hnd hts
    have hcons : fix_suite_rows p v x vr (test :: rest) targets
        = cross_reference_rows p v x test.1 vr test.2 targets
          ++ fix_suite_rows p v x vr rest targets := rfl
    rw [hcons, List.countP_append]
    rw [List.map_cons, List.nodup_cons] at hnd
    rcases List.mem_cons.mp hts with heq | hmem
    · have h1 : test.1 = t := by rw [← heq]
      have h2 : test.2 = cov := by rw [← heq]
      rw [h1, h2, cross_rows_countP_self p v x t f vr cov targets]
      have hnotin : t ∉ rest.map Prod.fst := by rw [← h1]; exact hnd.1
      rw [fix_suite_rows_countP_not_mem p v x t f ht vr targets rest hnotin]
      simp
    · have hne : t ≠ test.1 := by
        intro h
        apply hnd.1
        rw [← h]
        exact List.mem_map.mpr ⟨(t, cov), hmem, rfl⟩
      rw [cross_rows_countP_other p v x test.1 t f ht hne vr test.2 targets,
        ih hnd.2 hmem]
      simp

theorem leftover_rows_countP (p v x t f : String) (ht : t ≠ "")
    (vr : List (String × List String)) (processed targets : List String)
    (htp : t ∈ processed) :
    (leftover_rows p v x vr processed targets).countP (mentions t f) = 0 := by
  rw [List.countP_eq_zero]
  intro r hr
  rw [leftover_rows] at hr
  rcases List.mem_flatMap.mp hr with ⟨entry, hentry, hre⟩
  split at hre
  · cases hre
  · rcases List.mem_filterMap.mp hre with ⟨g, hg, hrg⟩
    split at hrg
    · cases hrg
      have hne : entry.1 ≠ t := by
        intro h
        rename_i hni _
        exact hni (by rw [h]; exact List.elem_iff.mpr htp)
      unfold mentions
      simp [hne, Ne.symm ht]
    · cases hrg

/-- Claim C1: in the Phase-1 fix loop (`vuln_fix_testCompile.run_fix_phase`,
identically `vfec_init.run_phase_1`), for every changed file `f` and every
test `t` of the fix suite, exactly one relevance row mentioning `(t, f)` is
emitted iff `f` is in the vuln-build coverage record of `t` or in the
fix-build covered set of `t` (inclusive or); that row carries `t` in
`v_testname` exactly when the vuln build covered `f` and in `f_testname`
exactly when the fix build covered `f`, the other column left empty. -/
theorem claim_C1 (p v x t f : String) (cov : List String)
    (vr suite : List (String × List String)) (targets : List String)
    (hnames : (suite.map Prod.fst).Nodup) (htargets : targets.Nodup)
    (hts : (t, cov) ∈ suite) (hf : f ∈ targets) (ht : t ≠ "") :
    ((run_fix_phase_rows p v x vr suite targets).countP (mentions t f)
        = if (v_covered vr t f || cov.contains f) = true then 1 else 0)
    ∧ ∀ r ∈ run_fix_phase_rows p v x vr suite targets, mentions t f r = true →
        r = ⟨p, v, if v_covered vr t f then t else "", x,
             if cov.contains f then t else "", f⟩ := by
  have htproc : t ∈ suite.map Prod.fst := List.mem_map.mpr ⟨(t, cov), hts, rfl⟩
  constructor
  · rw [run_fix_phase_rows, List.countP_append,
      fix_suite_rows_countP p v x t f cov ht vr targets suite hnames hts,
      leftover_rows_countP p v x t f ht vr _ targets htproc,
      List.count_eq_one_of_mem htargets hf]
    simp
  · intro r hr hm
    rcases List.mem_append.mp hr with hmain | hleft
    · rw [fix_suite_rows] at hmain
      rcases List.mem_flatMap.mp hmain with ⟨test, htest, hrc⟩
      rcases mem_cross_reference_rows.mp hrc with ⟨g, hg, hc, rfl⟩
      unfold mentions at hm
      rw [Bool.and_eq_true, Bool.or_eq_true] at hm
      obtain ⟨hor, hgf⟩ := hm
      have hgf2 : g = f := by simpa using hgf
      have ht1 : test.1 = t := by
        rcases hor with h | h
        · dsimp only at h
          split at h
          · exact eq_of_beq h
          · exact absurd (eq_of_beq h).symm ht
        · dsimp only at h
          split at h
          · exact eq_of_beq h
          · exact absurd (eq_of_beq h).symm ht
      have hts2 : (t, test.2) ∈ suite := by rw [← ht1]; exact htest
      have hcov : test.2 = cov := nodup_assoc_value_eq hnames hts2 hts
      rw [ht1, hcov, hgf2]
    · exact absurd hm
        (List.countP_eq_zero.mp
          (leftover_rows_countP p v x t f ht vr _ targets htproc) r hleft)

/-- Witness for claim C1 at the worked example of the specification:
vuln coverage `{t1: [a.c]}`, fix coverage `{t1: [a.c, b.c]}`, changed files
`{a.c, b.c}`; exactly one row mentions `(t1, a.c)` and it marks both
builds. -/
theorem claim_C1_witness :
    (run_fix_phase_rows "X" "v" "x" [("t1", ["a.c"])] [("t1", ["a.c", "b.c"])]
        ["a.c", "b.c"]).countP (mentions "t1" "a.c")
      = if (v_covered [("t1", ["a.c"])] "t1" "a.c"
            || ["a.c", "b.c"].contains "a.c") = true then 1 else 0 :=
  (claim_C1 "X" "v" "x" "t1" "a.c" ["a.c", "b.c"] [("t1", ["a.c"])]
    [("t1", ["a.c", "b.c"])] ["a.c", "b.c"]
    (by decide) (by decide) (by decide) (by decide) (by decide)).1

namespace TC

/-- Observable effects of `vuln_fix_testCompile`: git cleaning/checkout,
configure-and-build, coverage-counter reset, one test execution, one
checkpoint save (with the status string it writes). -/
inductive Action where
  | gitClean
  | gitCheckout (commit : String)
  | build (commit : String) (ok : Bool)
  | resetCounters
  | runTest (commit : String) (name : String)
  | saveCheckpoint (status : String)
deriving DecidableEq, Repr

/-- Shape of the JSON checkpoint written by `save_checkpoint`:
a `status` field (absent on a fresh run, modelled by `none`) and the
`results` coverage record mapping test names to their relevant files. -/
structure Checkpoint where
  status : Option String
  results : List (String × List String)
deriving DecidableEq, Repr

/-- Environment of the vuln phase: outcome of `git checkout`, outcome of
`configure_and_build`, and the test suite (each test name paired with the
covered files its execution produces). -/
structure VulnEnv where
  checkout_ok : Bool
  build_ok : Bool
  suite : List (String × List String)
deriving Repr

/-- State threaded through the per-test loop of `run_vuln_phase`. -/
structure LoopState where
  results : List (String × List String)
  trace : List Action
deriving Repr

/-- One iteration of the `run_vuln_phase` test loop: skip a test already in
the results, otherwise reset the counters, run it, keep only the covered
files that are diff targets, and record plus checkpoint only when that
set is non-empty. -/
def vuln_test_step (vulnC : String) (targets : List String)
    (st : LoopState) (test : String × List String) : LoopState :=
  if (st.results.lookup test.1).isSome then st
  else
    let relevant := test.2.filter fun f => targets.contains f
    let tr := st.trace ++ [Action.resetCounters, Action.runTest vulnC test.1]
    if relevant = [] then ⟨st.results, tr⟩
    else ⟨st.results ++ [(test.1, relevant)], tr ++ [Action.saveCheckpoint "IN_PROGRESS"]⟩

/-- Model of `vuln_fix_testCompile.run_vuln_phase`: returns the action
trace, the optional coverage record (`none` models the Python `None` on
checkout/build failure) and the final on-disk checkpoint. -/
def run_vuln_phase (vulnC : String) (env : VulnEnv) (targets : List String)
    (ckpt : Checkpoint) :
    List Action × Option (List (String × List String)) × Checkpoint :=
  if ckpt.status = some "COMPLETE" then ([], some ckpt.results, ckpt)
  else
    let tr0 := [Action.gitClean, Action.gitCheckout vulnC]
    if !env.checkout_ok then (tr0, none, ckpt)
    else if !env.build_ok then (tr0 ++ [Action.build vulnC false], none, ckpt)
    else
      let final := env.suite.foldl (vuln_test_step vulnC targets) ⟨ckpt.results, []⟩
      (tr0 ++ [Action.build vulnC true] ++ final.trace ++ [Action.saveCheckpoint "COMPLETE"],
       some final.results,
       ⟨some "COMPLETE", final.results⟩)

/-- Environment of the fix phase (checkout/build outcomes and fix suite). -/
structure FixEnv where
  checkout_ok : Bool
  build_ok : Bool
  suite : List (String × List String)
deriving Repr

/-- Action trace of `vuln_fix_testCompile.run_fix_phase` (its rows are
modelled separately by `run_fix_phase_rows`). -/
def run_fix_phase_trace (fixC : String) (env : FixEnv) : List Action :=
  let tr0 := [Action.gitClean, Action.gitCheckout fixC]
  if !env.checkout_ok then tr0
  else if !env.build_ok then tr0 ++ [Action.build fixC false]
  else
    tr0 ++ [Action.build fixC true]
      ++ env.suite.flatMap fun test => [Action.resetCounters, Action.runTest fixC test.1]

/-- Inputs of `main`: the diff-target set of the fix commit, the two phase
environments, and the checkpoint loaded from disk. -/
structure MainEnv where
  diff : List String
  vulnEnv : VulnEnv
  fixEnv : FixEnv
  ckpt : Checkpoint
deriving Repr

/-- Traces of the two phases as sequenced by `main`:
the full program trace is `vulnTrace ++ fixTrace`. -/
structure MainOut where
  vulnTrace : List Action
  fixTrace : List Action
deriving Repr

/-- Model of `vuln_fix_testCompile.main`: abort on an empty diff, run the
vuln phase, and enter the fix phase only when the vuln phase returned a
coverage record. -/
def main_run (vulnC fixC : String) (env : MainEnv) : MainOut :=
  if env.diff = [] then ⟨[], []⟩
  else
    match run_vuln_phase vulnC env.vulnEnv env.diff env.ckpt with
    | (tr, none, _) => ⟨tr, []⟩
    | (tr, some _, _) => ⟨tr, run_fix_phase_trace fixC env.fixEnv⟩

end TC

namespace VI

/-- Observable effects of `vfec_init.run_phase_1`: git cleaning/checkout,
the plugin `build_coverage` call (carrying the outcome the code ignores),
gcda deletion, one test execution, and the two cache-save shapes the code
writes during the vuln section (`vuln_done` false mid-loop, true at the
end). -/
inductive Action where
  | gitClean
  | gitCheckout (commit : String)
  | buildCoverage (commit : String) (ok : Bool)
  | resetCounters
  | runTest (commit : String) (name : String)
  | saveCache (vuln_done : Bool)
deriving DecidableEq, Repr

/-- Shape of the `ckpt_cov` JSON cache of `vfec_init`: optional `status`
(set to COMPLETE_P1 when the pair is done), the `vuln_done` flag (absent
modelled as `false`), and the vuln coverage record. -/
structure P1Cache where
  status : Option String
  vuln_done : Bool
  results : List (String × List String)
deriving DecidableEq, Repr

/-- Environment of `run_phase_1`: outcome of the initial fix checkout (the
only checked command), outcomes of the two ignored `build_coverage` calls,
the diff-target set, and the two suites with the coverage each test
execution produces. -/
structure P1Env where
  fix_checkout_ok : Bool
  vuln_build_ok : Bool
  fix_build_ok : Bool
  diff : List String
  vuln_suite : List (String × List String)
  fix_suite : List (String × List String)
deriving Repr

/-- Loop state of the vuln section of `run_phase_1`. -/
structure VLoopState where
  results : List (String × List String)
  trace : List Action
deriving Repr

/-- One iteration of the vuln-section loop of `run_phase_1` (same logic as
`TC.vuln_test_step`, but the mid-loop save writes `vuln_done: false`). -/
def vuln_test_step (vulnC : String) (targets : List String)
    (st : VLoopState) (test : String × List String) : VLoopState :=
  if (st.results.lookup test.1).isSome then st
  else
    let relevant := test.2.filter fun f => targets.contains f
    let tr := st.trace ++ [Action.resetCounters, Action.runTest vulnC test.1]
    if relevant = [] then ⟨st.results, tr⟩
    else ⟨st.results ++ [(test.1, relevant)], tr ++ [Action.saveCache false]⟩

/-- Result of `run_phase_1`: its action trace, its boolean return value,
the final cache file content, and the Phase-1 rows it hands to the CSV
manager. -/
structure P1Out where
  trace : List Action
  ok : Bool
  cache : P1Cache
  rows : List P1Row
deriving Repr

/-- Model of `vfec_init.run_phase_1`.  Faithful details: the vuln-section
checkout and `build_coverage` results are NOT checked (their actions are
recorded but do not alter control flow); the fix section runs
unconditionally after the vuln section; the final save re-writes the cache
dict loaded at entry with only `status` set to COMPLETE_P1. -/
def run_phase_1 (repo vulnC fixC : String) (env : P1Env) (cache : P1Cache) : P1Out :=
  if cache.status = some "COMPLETE_P1" then ⟨[], true, cache, []⟩
  else
    let tr0 := [Action.gitClean, Action.gitCheckout fixC]
    if !env.fix_checkout_ok then ⟨tr0, false, cache, []⟩
    else if env.diff = [] then ⟨tr0, false, cache, []⟩
    else
      let vulnSection : List Action × List (String × List String) :=
        if !cache.vuln_done then
          let st := env.vuln_suite.foldl (vuln_test_step vulnC env.diff)
            ⟨cache.results, []⟩
          ([Action.gitClean, Action.gitCheckout vulnC,
            Action.buildCoverage vulnC env.vuln_build_ok]
            ++ st.trace ++ [Action.saveCache true], st.results)
        else ([], cache.results)
      let fixTrace : List Action :=
        [Action.gitClean, Action.gitCheckout fixC,
         Action.buildCoverage fixC env.fix_build_ok]
          ++ env.fix_suite.flatMap fun test =>
              [Action.resetCounters, Action.runTest fixC test.1]
      let rows : List P1Row := env.fix_suite.flatMap fun test =>
        cross_reference_rows repo vulnC fixC test.1 vulnSection.2 test.2 env.diff
      ⟨tr0 ++ vulnSection.1 ++ fixTrace, true,
       ⟨some "COMPLETE_P1", cache.vuln_done, cache.results⟩, rows⟩

end VI

/-- Claim C2: when the loaded coverage checkpoint has status COMPLETE
(COMPLETE_P1 for the `vfec_init` driver), re-running the vuln coverage
phase performs no action at all (no checkout, build or test execution) and
returns exactly the stored results; and whatever happens on a run that
returns a coverage record, running the phase again on the resulting
checkpoint is the identity on those results. -/
theorem claim_C2 :
    (∀ (vulnC : String) (env : TC.VulnEnv) (targets : List String) (ckpt : TC.Checkpoint),
        ckpt.status = some "COMPLETE" →
        TC.run_vuln_phase vulnC env targets ckpt = ([], some ckpt.results, ckpt))
    ∧ (∀ (vulnC : String) (env env2 : TC.VulnEnv) (targets targets2 : List String)
        (ckpt ck2 : TC.Checkpoint) (tr : List TC.Action) (R : List (String × List String)),
        TC.run_vuln_phase vulnC env targets ckpt = (tr, some R, ck2) →
        TC.run_vuln_phase vulnC env2 targets2 ck2 = ([], some R, ck2))
    ∧ (∀ (repo vulnC fixC : String) (env : VI.P1Env) (cache : VI.P1Cache),
        cache.status = some "COMPLETE_P1" →
        VI.run_phase_1 repo vulnC fixC env cache = ⟨[], true, cache, []⟩) := by
  refine ⟨?_, ?_, ?_⟩
  · intro vulnC env targets ckpt h
    unfold TC.run_vuln_phase
    rw [if_pos h]
  · intro vulnC env env2 targets targets2 ckpt ck2 tr R h
    unfold TC.run_vuln_phase at h
    split at h
    · rename_i h0
      simp only [Prod.mk.injEq] at h
      obtain ⟨htr, hres, hck⟩ := h
      subst hck
      have hR : ckpt.results = R := Option.some.inj hres
      unfold TC.run_vuln_phase
      rw [if_pos h0, hR]
    · rename_i h0
      split at h
      · simp at h
      · split at h
        · simp at h
        · simp only [Prod.mk.injEq] at h
          obtain ⟨htr, hres, hck⟩ := h
          subst hck
          have hR := Option.some.inj hres
          unfold TC.run_vuln_phase
          rw [if_pos rfl]
          simp [hR]
  · intro repo vulnC fixC env cache h
    unfold VI.run_phase_1
    rw [if_pos h]

/-- Witness for claim C2: a COMPLETE checkpoint is returned verbatim with
an empty action trace. -/
theorem claim_C2_witness :
    TC.run_vuln_phase "v" ⟨true, true, [("t1", ["a.c"])]⟩ ["a.c"]
        ⟨some "COMPLETE", [("t1", ["a.c"])]⟩
      = ([], some [("t1", ["a.c"])], ⟨some "COMPLETE", [("t1", ["a.c"])]⟩) :=
  claim_C2.1 "v" ⟨true, true, [("t1", ["a.c"])]⟩ ["a.c"]
    ⟨some "COMPLETE", [("t1", ["a.c"])]⟩ rfl

theorem run_vuln_phase_fail (vulnC : String) (env : TC.VulnEnv) (targets : List String)
    (ckpt : TC.Checkpoint) (h0 : ¬ckpt.status = some "COMPLETE")
    (hfail : env.checkout_ok = false ∨ env.build_ok = false) :
    (TC.run_vuln_phase vulnC env targets ckpt).2.1 = none := by
  unfold TC.run_vuln_phase
  rw [if_neg h0]
  rcases hfail with h | h <;> by_cases hco : env.checkout_ok <;> simp [h, hco]

theorem run_vuln_phase_some_trace (vulnC : String) (env : TC.VulnEnv)
    (targets : List String) (ckpt : TC.Checkpoint) (tr : List TC.Action)
    (R : List (String × List String)) (ck2 : TC.Checkpoint)
    (h : TC.run_vuln_phase vulnC env targets ckpt = (tr, some R, ck2)) :
    tr.getLast? = some (TC.Action.saveCheckpoint "COMPLETE")
      ∨ ckpt.status = some "COMPLETE" := by
  unfold TC.run_vuln_phase at h
  split at h
  · right; assumption
  · left
    split at h
    · simp at h
    · split at h
      · simp at h
      · simp only [Prod.mk.injEq] at h
        rw [← h.1]
        exact List.getLast?_concat _

/-- Claim C7 (amended): in `vuln_fix_testCompile.main` the fix phase is
entered only after the vuln phase has returned a record, which happens only
when its checkpoint was already COMPLETE or was just saved COMPLETE as the
last action of the vuln trace; a vuln checkout or build failure keeps the
fix phase from ever starting.  In `vfec_init.run_phase_1` the fix section
likewise starts only after the `vuln_done` completion marker has been
saved, but there a vuln checkout or build failure does NOT prevent the fix
section (the result of `build_coverage` is ignored; see the
counterexample). -/
theorem claim_C7 :
    (∀ (vulnC fixC : String) (env : TC.MainEnv),
        ¬env.ckpt.status = some "COMPLETE" →
        (env.vulnEnv.checkout_ok = false ∨ env.vulnEnv.build_ok = false) →
        (TC.main_run vulnC fixC env).fixTrace = [])
    ∧ (∀ (vulnC fixC : String) (env : TC.MainEnv),
        (TC.main_run vulnC fixC env).fixTrace ≠ [] →
        (TC.main_run vulnC fixC env).vulnTrace.getLast?
            = some (TC.Action.saveCheckpoint "COMPLETE")
          ∨ env.ckpt.status = some "COMPLETE")
    ∧ (∀ (repo vulnC fixC : String) (env : VI.P1Env) (cache : VI.P1Cache),
        ¬cache.status = some "COMPLETE_P1" → env.fix_checkout_ok = true →
        env.diff ≠ [] → cache.vuln_done = false →
        ∃ pre : List VI.Action,
          (VI.run_phase_1 repo vulnC fixC env cache).trace
            = pre ++ [VI.Action.saveCache true]
              ++ ([VI.Action.gitClean, VI.Action.gitCheckout fixC,
                   VI.Action.buildCoverage fixC env.fix_build_ok]
                  ++ env.fix_suite.flatMap fun test =>
                      [VI.Action.resetCounters, VI.Action.runTest fixC test.1])) := by
  refine ⟨?_, ?_, ?_⟩
  · intro vulnC fixC env h0 hfail
    unfold TC.main_run
    split
    · rfl
    · have hnone := run_vuln_phase_fail vulnC env.vulnEnv env.diff env.ckpt h0 hfail
      split
      · rfl
      · rename_i heq
        rw [heq] at hnone
        simp at hnone
  · intro vulnC fixC env hne
    unfold TC.main_run at hne ⊢
    split at hne
    · simp at hne
    · split at hne
      · simp at hne
      · rename_i heq
        rw [if_neg (by assumption)]
        exact (run_vuln_phase_some_trace _ _ _ _ _ _ _ heq).imp_left id
  · intro repo vulnC fixC env cache h0 h1 h2 h3
    unfold VI.run_phase_1
    rw [if_neg h0]
    rw [h1]
    simp only [Bool.not_true, Bool.false_eq_true, if_false]
    rw [if_neg h2, h3]
    simp only [Bool.not_false, if_true]
    refine ⟨[VI.Action.gitClean, VI.Action.gitCheckout fixC]
      ++ [VI.Action.gitClean, VI.Action.gitCheckout vulnC,
          VI.Action.buildCoverage vulnC env.vuln_build_ok]
      ++ (env.vuln_suite.foldl (VI.vuln_test_step vulnC env.diff)
          ⟨cache.results, []⟩).trace, ?_⟩
    simp [List.append_assoc]

/-- Witness for claim C7: with a failing vuln build and a fresh checkpoint,
`vuln_fix_testCompile.main` never enters the fix phase. -/
theorem claim_C7_witness :
    (TC.main_run "v" "x"
      ⟨["a.c"], ⟨true, false, [("t1", ["a.c"])]⟩, ⟨true, true, [("t1", ["a.c"])]⟩,
       ⟨none, []⟩⟩).fixTrace = [] :=
  claim_C7.1 "v" "x"
    ⟨["a.c"], ⟨true, false, [("t1", ["a.c"])]⟩, ⟨true, true, [("t1", ["a.c"])]⟩,
     ⟨none, []⟩⟩ (by simp) (Or.inr rfl)

/-- Claim C7 counterexample: in `vfec_init.run_phase_1`, even when the vuln
build fails (`build_coverage` outcome false), the fix section still runs
its tests — the fix phase is entered despite the vuln-phase failure. -/
theorem claim_C7_counterexample :
    (⟨true, false, true, ["a.c"], [("t1", ["a.c"])], [("t1", ["a.c"])]⟩ : VI.P1Env).vuln_build_ok
        = false
    ∧ (VI.run_phase_1 "proj" "VULN" "FIX"
        ⟨true, false, true, ["a.c"], [("t1", ["a.c"])], [("t1", ["a.c"])]⟩
        ⟨none, false, []⟩).trace.contains (VI.Action.runTest "FIX" "t1") = true := by
  refine ⟨rfl, by decide⟩

/-- Invariant of the vuln checkpoint results map: every stored value is a
non-empty list of files that are all diff targets. -/
def results_invariant (targets : List String)
    (results : List (String × List String)) : Prop :=
  ∀ pr ∈ results, pr.2 ≠ [] ∧ ∀ f ∈ pr.2, f ∈ targets

theorem vuln_test_step_invariant (vulnC : String) (targets : List String)
    (st : TC.LoopState) (test : String × List String)
    (h : results_invariant targets st.results) :
    results_invariant targets (TC.vuln_test_step vulnC targets st test).results := by
  simp only [TC.vuln_test_step]
  split
  · exact h
  · split
    · exact h
    · rename_i hrel
      intro pr hpr
      rcases List.mem_append.mp hpr with h1 | h2
      · exact h pr h1
      · rw [List.mem_singleton] at h2
        subst h2
        refine ⟨hrel, ?_⟩
        intro f hf
        exact List.elem_iff.mp (List.mem_filter.mp hf).2

theorem scanl_results_invariant (vulnC : String) (targets : List String) :
    ∀ (suite : List (String × List String)) (st : TC.LoopState),
      results_invariant targets st.results →
      ∀ s ∈ List.scanl (TC.vuln_test_step vulnC targets) st suite,
        results_invariant targets s.results := by
  intro suite
  induction suite with
  | nil =>
    intro st h s hs
    rw [List.scanl] at hs
    rcases List.mem_singleton.mp hs with rfl
    exact h
  | cons test rest ih =>
    intro st h s hs
    rw [List.scanl] at hs
    rcases List.mem_cons.mp hs with rfl | hs2
    · exact h
    · exact ih _ (vuln_test_step_invariant vulnC targets st test h) s hs2

theorem lookup_append_of_none {β : Type} (t : String) :
    ∀ (l1 l2 : List (String × β)), l1.lookup t = none →
      (l1 ++ l2).lookup t = l2.lookup t := by
  intro l1
  induction l1 with
  | nil => intro l2 _; rfl
  | cons a rest ih =>
    intro l2 h
    obtain ⟨k, v⟩ := a
    rw [List.cons_append]
    by_cases hk : (t == k) = true
    · exfalso
      rw [List.lookup, hk] at h
      exact Option.noConfusion h
    · rw [Bool.not_eq_true] at hk
      rw [List.lookup, hk] at h
      rw [List.lookup, hk]
      exact ih l2 h

theorem vuln_test_step_lookup_ne (vulnC : String) (targets : List String)
    (st : TC.LoopState) (test : String × List String) (t : String)
    (hne : test.1 ≠ t) (h : st.results.lookup t = none) :
    (TC.vuln_test_step vulnC targets st test).results.lookup t = none := by
  simp only [TC.vuln_test_step]
  split
  · exact h
  · split
    · exact h
    · rw [lookup_append_of_none t st.results _ h]
      rw [List.lookup]
      have : (t == test.1) = false := by
        rw [beq_eq_false_iff_ne]
        exact Ne.symm hne
      rw [this]
      rfl

theorem foldl_lookup_none (vulnC : String) (targets : List String) :
    ∀ (suite : List (String × List String)) (st : TC.LoopState) (t : String),
      st.results.lookup t = none →
      (∀ pr ∈ suite, pr.1 = t → pr.2.filter (fun f => targets.contains f) = []) →
      (suite.foldl (TC.vuln_test_step vulnC targets) st).results.lookup t = none := by
  intro suite
  induction suite with
  | nil => intro st t h _; exact h
  | cons test rest ih =>
    intro st t h hall
    rw [List.foldl_cons]
    apply ih
    · by_cases hte : test.1 = t
      · simp only [TC.vuln_test_step]
        split
        · exact h
        · split
          · exact h
          · rename_i hrel
            exact absurd (hall test (List.mem_cons_self _ _) hte) hrel
      · exact vuln_test_step_lookup_ne vulnC targets st test t hte h
    · intro pr hpr hpt
      exact hall pr (List.mem_cons_of_mem _ hpr) hpt

theorem vuln_test_step_trace_mono (vulnC : String) (targets : List String)
    (st : TC.LoopState) (test : String × List String) :
    ∃ ext, (TC.vuln_test_step vulnC targets st test).trace = st.trace ++ ext := by
  simp only [TC.vuln_test_step]
  split
  · exact ⟨[], by simp⟩
  · split
    · exact ⟨_, rfl⟩
    · exact ⟨_, by rw [List.append_assoc]⟩

theorem foldl_trace_mono (vulnC : String) (targets : List String) :
    ∀ (suite : List (String × List String)) (st : TC.LoopState),
      ∃ ext, (suite.foldl (TC.vuln_test_step vulnC targets) st).trace
        = st.trace ++ ext := by
  intro suite
  induction suite with
  | nil => intro st; exact ⟨[], by simp⟩
  | cons test rest ih =>
    intro st
    rw [List.foldl_cons]
    obtain ⟨e1, he1⟩ := vuln_test_step_trace_mono vulnC targets st test
    obtain ⟨e2, he2⟩ := ih (TC.vuln_test_step vulnC targets st test)
    exact ⟨e1 ++ e2, by rw [he2, he1, List.append_assoc]⟩

theorem runTest_mem_foldl (vulnC : String) (targets : List String) :
    ∀ (suite : List (String × List String)) (st : TC.LoopState) (t : String)
      (cov : List String), (t, cov) ∈ suite → st.results.lookup t = none →
      TC.Action.runTest vulnC t
        ∈ (suite.foldl (TC.vuln_test_step vulnC targets) st).trace := by
  intro suite
  induction suite with
  | nil => intro st t cov hmem; cases hmem
  | cons test rest ih =>
    intro st t cov hmem h
    rw [List.foldl_cons]
    by_cases hte : test.1 = t
    · have hrun : TC.Action.runTest vulnC t
          ∈ (TC.vuln_test_step vulnC targets st test).trace := by
        simp only [TC.vuln_test_step]
        rw [hte, h]
        simp only [Option.isSome_none, Bool.false_eq_true, if_false]
        split
        · exact List.mem_append.mpr (Or.inr (by simp))
        · exact List.mem_append.mpr
            (Or.inl (List.mem_append.mpr (Or.inr (by simp))))
      obtain ⟨ext, hext⟩ := foldl_trace_mono vulnC targets rest
        (TC.vuln_test_step vulnC targets st test)
      rw [hext]
      exact List.mem_append.mpr (Or.inl hrun)
    · rcases List.mem_cons.mp hmem with heq | hmem2
      · exact absurd (congrArg Prod.fst heq).symm hte
      · exact ih _ t cov hmem2
          (vuln_test_step_lookup_ne vulnC targets st test t hte h)

/-- Claim C10: throughout the vuln coverage loop the checkpoint results map
stores only non-empty lists of diff targets; a test whose coverage does not
intersect the target set is never recorded; and consequently, on a resume
from an IN_PROGRESS checkpoint, a test absent from the stored results is
executed again. -/
theorem claim_C10 (vulnC : String) (targets : List String)
    (suite : List (String × List String)) (init : List (String × List String))
    (hinv : results_invariant targets init) :
    (∀ st ∈ List.scanl (TC.vuln_test_step vulnC targets)
        (⟨init, []⟩ : TC.LoopState) suite,
      results_invariant targets st.results)
    ∧ (∀ t R, init.lookup t = none →
        (∀ pr ∈ suite, pr.1 = t → pr.2.filter (fun f => targets.contains f) = []) →
        (TC.run_vuln_phase vulnC ⟨true, true, suite⟩ targets
            ⟨some "IN_PROGRESS", init⟩).2.1 = some R →
        R.lookup t = none)
    ∧ (∀ t cov, (t, cov) ∈ suite → init.lookup t = none →
        TC.Action.runTest vulnC t
          ∈ (TC.run_vuln_phase vulnC ⟨true, true, suite⟩ targets
              ⟨some "IN_PROGRESS", init⟩).1) := by
  have hstatus : ¬(some "IN_PROGRESS" : Option String) = some "COMPLETE" := by decide
  refine ⟨?_, ?_, ?_⟩
  · exact scanl_results_invariant vulnC targets suite ⟨init, []⟩ hinv
  · intro t R hlook hall hrun
    unfold TC.run_vuln_phase at hrun
    rw [if_neg hstatus] at hrun
    simp only [Bool.not_true, Bool.false_eq_true, if_false, Prod.mk.injEq] at hrun
    rw [← Option.some.inj hrun]
    exact foldl_lookup_none vulnC targets suite ⟨init, []⟩ t hlook hall
  · intro t cov hmem hlook
    unfold TC.run_vuln_phase
    rw [if_neg hstatus]
    simp only [Bool.not_true, Bool.false_eq_true, if_false]
    refine List.mem_append.mpr (Or.inl (List.mem_append.mpr (Or.inr ?_)))
    exact runTest_mem_foldl vulnC targets suite ⟨init, []⟩ t cov hmem hlook

/-- Witness for claim C10: resuming from an IN_PROGRESS checkpoint that
already holds `t0` re-executes the still missing test `t1`. -/
theorem claim_C10_witness :
    TC.Action.runTest "v" "t1"
      ∈ (TC.run_vuln_phase "v" ⟨true, true, [("t1", ["x.c"]), ("t2", ["a.c"])]⟩ ["a.c"]
          ⟨some "IN_PROGRESS", [("t0", ["a.c"])]⟩).1 :=
  (claim_C10 "v" ["a.c"] [("t1", ["x.c"]), ("t2", ["a.c"])] [("t0", ["a.c"])]
    (by unfold results_invariant; decide)).2.2 "t1" ["x.c"] (by decide) (by decide)

/-- Minimal JSON value type for the checkpoint dictionaries. -/
inductive JValue where
  | null
  | bool (b : Bool)
  | num (q : ℚ)
  | str (s : String)
  | arr (elements : List JValue)
  | obj (fields : List (String × JValue))

/-- A JSON object as returned by `json.load`. -/
abbrev JDict := List (String × JValue)

/-- State of a checkpoint file as seen by the loaders.  The call to
`json.load` is external library code; its outcome on a present file is an
input of the model: `some d` when the content parses to the dictionary `d`,
`none` when the content is malformed or truncated (the library raises
`json.decoder.JSONDecodeError`). -/
inductive FileState where
  | missing
  | present (parsed : Option JDict)

/-- Model of `vfec_init.load_cache`: missing file gives the empty dict, a
parse error is caught by the bare `except` and gives the empty dict. -/
def load_cache (file : FileState) : JDict :=
  match file with
  | .missing => []
  | .present parsed =>
    match parsed with
    | some d => d
    | none => []

/-- Model of `vuln_fix_testCompile.load_checkpoint`: missing file gives the
empty dict, but there is NO exception handler around `json.load`, so a
parse error propagates (modelled by `Except.error`). -/
def load_checkpoint (file : FileState) : Except String JDict :=
  match file with
  | .missing => .ok []
  | .present parsed =>
    match parsed with
    | some d => .ok d
    | none => .error "json.decoder.JSONDecodeError"

/-- Claim C3 (amended): `vfec_init.load_cache` returns a dict and never
raises — missing and malformed files both yield the empty dict — while
`vuln_fix_testCompile.load_checkpoint` yields the empty dict only for a
missing file and propagates the JSON parse error on a malformed one. -/
theorem claim_C3 :
    (load_cache FileState.missing = [])
    ∧ (load_cache (FileState.present none) = [])
    ∧ (∀ d : JDict, load_cache (FileState.present (some d)) = d)
    ∧ (load_checkpoint FileState.missing = Except.ok [])
    ∧ (∀ d : JDict, load_checkpoint (FileState.present (some d)) = Except.ok d) :=
  ⟨rfl, rfl, fun _ => rfl, rfl, fun _ => rfl⟩

/-- Claim C3 counterexample: on a malformed checkpoint file,
`vuln_fix_testCompile.load_checkpoint` raises instead of returning the
empty dict. -/
theorem claim_C3_counterexample :
    load_checkpoint (FileState.present none)
      = Except.error "json.decoder.JSONDecodeError"
    ∧ load_checkpoint (FileState.present none) ≠ Except.ok [] := by
  refine ⟨rfl, ?_⟩
  intro h
  exact Except.noConfusion h

/-- Iteration calibration shared by `vfec_output.measure_energy` and
`profiler.measure_single_test`: one warm-up run of wall-clock duration `d`
(clamped below by one millisecond) and `iterations` equal to the ceiling
of `target / max d 0.001`. -/
def iterationsOf (target_duration duration : ℚ) : ℤ :=
  ⌈target_duration / max duration (1 / 1000)⌉

/-- The clamp as written in `profiler.measure_single_test`
(`if duration < 0.001: duration = 0.001`). -/
def profiler_clamp (duration : ℚ) : ℚ :=
  if duration < 1 / 1000 then 1 / 1000 else duration

/-- Claim C5: iterations are the ceiling of target over the clamped
duration; 0.5 s against a 2.0 s target gives 4 iterations; every
non-negative duration (including the degenerate 0) gives at least one
iteration; and the profiler's if-clamp computes the same value as the
max-clamp. -/
theorem claim_C5 :
    iterationsOf 2 (1 / 2) = 4
    ∧ (∀ target d : ℚ, 0 < target → 0 ≤ d → 1 ≤ iterationsOf target d)
    ∧ iterationsOf 2 0 = 2000
    ∧ (∀ target d : ℚ, ⌈target / profiler_clamp d⌉ = iterationsOf target d) := by
  refine ⟨?_, ?_, ?_, ?_⟩
  · unfold iterationsOf
    rw [show max (1 / 2 : ℚ) (1 / 1000) = 1 / 2 from by norm_num]
    norm_num
  · intro target d htarget hd
    unfold iterationsOf
    have hpos : 0 < max d (1 / 1000 : ℚ) := lt_max_of_lt_right (by norm_num)
    have : (0 : ℤ) < ⌈target / max d (1 / 1000)⌉ :=
      Int.ceil_pos.mpr (div_pos htarget hpos)
    omega
  · unfold iterationsOf
    rw [show max (0 : ℚ) (1 / 1000) = 1 / 1000 from by norm_num]
    norm_num
  · intro target d
    unfold iterationsOf profiler_clamp
    by_cases h : d < 1 / 1000
    · rw [if_pos h, max_eq_right (le_of_lt h)]
    · rw [if_neg h, max_eq_left (le_of_not_lt h)]

/-- Witness for claim C5 at the degenerate duration 0: at least one
iteration is always run. -/
theorem claim_C5_witness : 1 ≤ iterationsOf 2 0 :=
  claim_C5.2.1 2 0 (by norm_num) (by norm_num)

/-- Value field of one `perf stat -x,` output line, as the parsing code
sees it: a literal `<not supported>`, an empty field, a numeric value
(`float(...)` succeeds), or any other text on which `float` raises
`ValueError`. -/
inductive PerfVal where
  | notSupported
  | empty
  | num (q : ℚ)
  | unparseable
deriving DecidableEq, Repr

/-- One stderr line of `perf stat -x,`: either it splits into fewer than
three comma fields (skipped), or it carries a value field and an event
name field. -/
inductive PerfLine where
  | short
  | fields (val : PerfVal) (event : String)
deriving DecidableEq, Repr

namespace VO

/-- The per-line test of the parsing loop in `vfec_output.measure_energy`:
a line yields the package energy when its value parses as a float and its
event field contains `energy-pkg`; the loop stops at the first such line. -/
def pkg_of_line (l : PerfLine) : Option ℚ :=
  match l with
  | .short => none
  | .fields v e =>
    match v with
    | .num q => if containsStr e "energy-pkg" then some q else none
    | _ => none

/-- Model of `vfec_output.measure_energy`: clamp the warm-up duration,
compute the iteration count, scan the perf output for the first parseable
`energy-pkg` line, return `none` when there is none, else the total
divided by the iteration count. -/
def measure_energy (target_duration duration0 : ℚ) (lines : List PerfLine) : Option ℚ :=
  let duration := max duration0 (1 / 1000)
  let iterations : ℤ := ⌈target_duration / duration⌉
  match lines.findSome? pkg_of_line with
  | none => none
  | some energy_pkg =>
    if 0 < iterations then some (energy_pkg / (iterations : ℚ)) else none

end VO

/-- Python dict assignment `m[k] = v` on an association list: replace in
place, or append when the key is new. -/
def setKey {β : Type} (m : List (String × β)) (k : String) (v : β) :
    List (String × β) :=
  match m with
  | [] => [(k, v)]
  | (k2, v2) :: rest => if k2 = k then (k, v) :: rest else (k2, v2) :: setKey rest k v

namespace VI

/-- The caching step of `vfec_init.run_phase_2` around one measurement:
`cache[commit][t_name] = pkg_energy` and a save happen only when the
measurement is not `None`.  The Boolean records whether the cache was
saved. -/
def p2_record (cache : List (String × List (String × ℚ))) (commit t_name : String)
    (pkg_energy : Option ℚ) : List (String × List (String × ℚ)) × Bool :=
  match pkg_energy with
  | none => (cache, false)
  | some e =>
    let inner := (cache.lookup commit).getD []
    (setKey cache commit (setKey inner t_name e), true)

end VI

namespace PR

/-- The metrics dictionary accumulated by `profiler.measure_single_test`
(`ipc` is filled only at the end; the final dict drops `instructions`,
modelled by 0). -/
structure Metrics where
  energy_pkg : ℚ
  energy_core : ℚ
  cycles : ℚ
  instructions : ℚ
  ipc : ℚ
deriving DecidableEq, Repr

/-- One step of the parsing loop of `profiler.measure_single_test`:
`<not supported>` and empty value fields are skipped (the metric keeps its
0.0 default), unparseable values raise `ValueError` and are skipped, and a
numeric value updates the first matching event bucket — energy values are
overwritten, cycles and instructions are summed (hybrid cores). -/
def parse_step (m : Metrics) (l : PerfLine) : Metrics :=
  match l with
  | .short => m
  | .fields v event =>
    match v with
    | .notSupported => m
    | .empty => m
    | .unparseable => m
    | .num val =>
      if containsStr event "energy-pkg" then
        ⟨val, m.energy_core, m.cycles, m.instructions, m.ipc⟩
      else if containsStr event "energy-cores" then
        ⟨m.energy_pkg, val, m.cycles, m.instructions, m.ipc⟩
      else if containsStr event "cycles" then
        ⟨m.energy_pkg, m.energy_core, m.cycles + val, m.instructions, m.ipc⟩
      else if containsStr event "instructions" then
        ⟨m.energy_pkg, m.energy_core, m.cycles, m.instructions + val, m.ipc⟩
      else m

/-- The totals accumulated over the whole perf output, starting from the
all-zero metrics dict. -/
def parsed_totals (lines : List PerfLine) : Metrics :=
  lines.foldl parse_step ⟨0, 0, 0, 0, 0⟩

/-- Model of `profiler.measure_single_test`: warm-up run (failure returns
`None`), if-clamped duration, iteration count, perf invocation (non-zero
exit returns `None`), parse, divide the accumulated counters by the
iteration count, and compute IPC from the undivided totals when cycles are
positive. -/
def measure_single_test (target_duration : ℚ) (warmup_ok : Bool) (duration0 : ℚ)
    (perf_ok : Bool) (lines : List PerfLine) : Option Metrics :=
  if !warmup_ok then none
  else
    let duration := profiler_clamp duration0
    let iterations : ℤ := ⌈target_duration / duration⌉
    if !perf_ok then none
    else
      let metrics := parsed_totals lines
      if 0 < iterations then
        let fm : Metrics :=
          ⟨metrics.energy_pkg / (iterations : ℚ), metrics.energy_core / (iterations : ℚ),
           metrics.cycles / (iterations : ℚ), 0, 0⟩
        some (if 0 < fm.cycles then
                ⟨fm.energy_pkg, fm.energy_core, fm.cycles, fm.instructions,
                 metrics.instructions / metrics.cycles⟩
              else fm)
      else none

end PR

/-- Claim C6 (amended): in `vfec_output.measure_energy` an output with no
parseable package-energy line yields `None`, and `run_phase_2` then leaves
the energy cache untouched (no save), so the test is retried next run; in
`profiler.measure_single_test`, `<not supported>` and empty value fields
leave the accumulated metrics unchanged without discarding the
measurement, and the measurement is returned whenever perf exits cleanly —
even when the package-energy event itself is unparseable (see the
counterexample, where it silently defaults to 0.0). -/
theorem claim_C6 (target_duration duration0 : ℚ) (lines : List PerfLine)
    (hnone : ∀ l ∈ lines, VO.pkg_of_line l = none) :
    VO.measure_energy target_duration duration0 lines = none
    ∧ (∀ (cache : List (String × List (String × ℚ))) (commit t : String),
        VI.p2_record cache commit t none = (cache, false))
    ∧ (∀ (m : PR.Metrics) (e : String),
        PR.parse_step m (PerfLine.fields PerfVal.notSupported e) = m
          ∧ PR.parse_step m (PerfLine.fields PerfVal.empty e) = m)
    ∧ (∀ (td d : ℚ) (ls : List PerfLine), 0 < (⌈td / profiler_clamp d⌉ : ℤ) →
        (PR.measure_single_test td true d true ls).isSome = true) := by
  refine ⟨?_, fun _ _ _ => rfl, fun _ _ => ⟨rfl, rfl⟩, ?_⟩
  · unfold VO.measure_energy
    rw [List.findSome?_eq_none_iff.mpr hnone]
  · intro td d ls h
    unfold PR.measure_single_test
    simp only [Bool.not_true, Bool.false_eq_true, if_false]
    rw [if_pos h]
    simp

/-- The perf output used as the C6 counterexample: the `energy-pkg` line
is unparseable (for example garbled), the `cycles` line reads 5. -/
def c6_lines : List PerfLine :=
  [PerfLine.fields PerfVal.unparseable "power/energy-pkg/",
   PerfLine.fields (PerfVal.num 5) "cycles"]

/-- Claim C6 counterexample: with the package-energy event unparseable,
`profiler.measure_single_test` does NOT return `None`: it returns a
measurement whose `energy_pkg` silently defaults to 0 (and it is then
cached by the caller), contradicting the claim for this cited source. -/
theorem claim_C6_counterexample :
    c6_lines.findSome? VO.pkg_of_line = none
    ∧ PR.measure_single_test 3 true 1 true c6_lines
        = some ⟨0, 0, 5 / 3, 0, 0⟩ := by
  constructor
  · decide
  · unfold PR.measure_single_test PR.parsed_totals c6_lines
    simp only [List.foldl_cons, List.foldl_nil, PR.parse_step,
      show containsStr "cycles" "energy-pkg" = false from by decide,
      show containsStr "cycles" "energy-cores" = false from by decide,
      show containsStr "cycles" "cycles" = true from by decide,
      if_true, if_false, Bool.not_true, Bool.false_eq_true]
    norm_num [profiler_clamp]

/-- Claim C8: when the perf counters parse successfully, every accumulated
counter in the returned measurement equals the perf-reported total divided
by the iteration count — `energy_pkg`, `energy_core` and `cycles` for
`profiler.measure_single_test`, and the single `energy_pkg` value for
`vfec_output.measure_energy`. -/
theorem claim_C8 (target_duration duration0 : ℚ) (lines : List PerfLine)
    (m : PR.Metrics)
    (hm : PR.measure_single_test target_duration true duration0 true lines = some m) :
    (m.energy_pkg = (PR.parsed_totals lines).energy_pkg
        / ((⌈target_duration / profiler_clamp duration0⌉ : ℤ) : ℚ)
      ∧ m.energy_core = (PR.parsed_totals lines).energy_core
        / ((⌈target_duration / profiler_clamp duration0⌉ : ℤ) : ℚ)
      ∧ m.cycles = (PR.parsed_totals lines).cycles
        / ((⌈target_duration / profiler_clamp duration0⌉ : ℤ) : ℚ))
    ∧ (∀ q : ℚ, lines.findSome? VO.pkg_of_line = some q →
        0 < (⌈target_duration / max duration0 (1 / 1000)⌉ : ℤ) →
        VO.measure_energy target_duration duration0 lines
          = some (q / ((⌈target_duration / max duration0 (1 / 1000)⌉ : ℤ) : ℚ))) := by
  constructor
  · unfold PR.measure_single_test at hm
    simp only [Bool.not_true, Bool.false_eq_true, if_false] at hm
    split at hm
    · rw [Option.some.inj hm.symm]
      split
      · exact ⟨rfl, rfl, rfl⟩
      · exact ⟨rfl, rfl, rfl⟩
    · exact Option.noConfusion hm
  · intro q hq hpos
    unfold VO.measure_energy
    simp only [hq]
    rw [if_pos hpos]

/-- Witness for claim C8: one pkg-energy line of 8 J with one iteration
gives the per-invocation value 8. -/
theorem claim_C8_witness :
    (⟨8, 0, 0, 0, 0⟩ : PR.Metrics).energy_pkg
        = (PR.parsed_totals [PerfLine.fields (PerfVal.num 8) "power/energy-pkg/"]).energy_pkg
          / ((⌈(2 : ℚ) / profiler_clamp 2⌉ : ℤ) : ℚ)
      ∧ (⟨8, 0, 0, 0, 0⟩ : PR.Metrics).energy_core
        = (PR.parsed_totals [PerfLine.fields (PerfVal.num 8) "power/energy-pkg/"]).energy_core
          / ((⌈(2 : ℚ) / profiler_clamp 2⌉ : ℤ) : ℚ)
      ∧ (⟨8, 0, 0, 0, 0⟩ : PR.Metrics).cycles
        = (PR.parsed_totals [PerfLine.fields (PerfVal.num 8) "power/energy-pkg/"]).cycles
          / ((⌈(2 : ℚ) / profiler_clamp 2⌉ : ℤ) : ℚ) := by
  refine (claim_C8 2 2 [PerfLine.fields (PerfVal.num 8) "power/energy-pkg/"]
    ⟨8, 0, 0, 0, 0⟩ ?_).1
  unfold PR.measure_single_test PR.parsed_totals
  simp only [List.foldl_cons, List.foldl_nil, PR.parse_step,
    show containsStr "power/energy-pkg/" "energy-pkg" = true from by decide,
    if_true, Bool.not_true, Bool.false_eq_true, if_false]
  norm_num [profiler_clamp]

/-- Witness for claim C6 at an output containing only a short line: the
measurement is discarded. -/
theorem claim_C6_witness :
    VO.measure_energy 2 1 [PerfLine.short] = none :=
  (claim_C6 2 1 [PerfLine.short] (by decide)).1
